import Mathlib

/-!
Verification of the call/response protocol layer of a duplex RPC framework
(package rpc): the response-initiation state machine (responder.respond,
Return, Continue, Send), the client-side Response accessors (Err, Continue),
the server-side Call.Receive, and the streaming adapter ReceiveNotify.

The channel is modelled as a write trace of encoded wire events together with
a closed flag; encoding a value on the channel may fail, which is modelled by
a send oracle assigning to each send (numbered from 0) an optional error.
Go dynamic values are modelled by GoValue: an untyped nil, a value
implementing the error interface (carrying its message), or ordinary data.
-/

namespace Rpc

/-- A Go dynamic value (interface value) as seen by the protocol layer:
nil, a value implementing the error interface (only its message matters on
the wire), or an ordinary payload value. -/
inductive GoValue where
  | nil : GoValue
  | error : String → GoValue
  | data : Nat → GoValue
deriving DecidableEq, Repr

/-- ResponseHeader: the value encoded over the channel to indicate a
response. E is the optional error message, C the continue flag. -/
structure ResponseHeader where
  E : Option String
  C : Bool
deriving DecidableEq, Repr

/-- One encoded value written on a channel by the responding side: either a
response header or a reply value. -/
inductive WireEvent where
  | header : ResponseHeader → WireEvent
  | value : GoValue → WireEvent
deriving DecidableEq, Repr

/-- State of a mux channel as seen from the writing side: how many encodes
were attempted so far, the trace of successfully encoded events, and whether
Close has been attempted. -/
structure Chan where
  sends : Nat
  trace : List WireEvent
  closed : Bool
deriving DecidableEq, Repr

/-- A send oracle: for the k-th encode attempted on the channel, `none`
means the encode succeeds, `some e` means it fails with error message e. -/
def SendOracle : Type := Nat → Option String

/-- The oracle under which every encode succeeds. -/
def noFail : SendOracle := fun _ => none

/-- Encode one event on the channel: consults the oracle at the current send
counter; on success the event is appended to the trace. -/
def Chan.send (oracle : SendOracle) (ch : Chan) (ev : WireEvent) :
    Chan × Option String :=
  match oracle ch.sends with
  | none => ({ ch with sends := ch.sends + 1, trace := ch.trace ++ [ev] }, none)
  | some e => ({ ch with sends := ch.sends + 1 }, some e)

/-- Close the channel; closeErr is the error Close reports, if any. -/
def Chan.close (closeErr : Option String) (ch : Chan) : Chan × Option String :=
  ({ ch with closed := true }, closeErr)

/-- The responder struct: the responded flag, the response header being
built, and the channel being written to. -/
structure ResponderState where
  responded : Bool
  header : ResponseHeader
  ch : Chan
deriving DecidableEq, Repr

/-- responder.Send: encodes one value directly on the channel (no header,
no state change besides the channel write). -/
def ResponderState.Send (oracle : SendOracle) (r : ResponderState)
    (v : GoValue) : ResponderState × Option String :=
  let (ch, e) := r.ch.send oracle (WireEvent.value v)
  ({ r with ch := ch }, e)

/-- The error convention of respond: if exactly one value is supplied and it
is an error object (the Go type assertion values[0].(error) succeeds), the
value list becomes a single nil and the message of the error goes into the
header. An untyped nil or ordinary data fails the type assertion and is left
unchanged. -/
def errConv (header : ResponseHeader) (values : List GoValue) :
    ResponseHeader × List GoValue :=
  match values with
  | [GoValue.error msg] => ({ header with E := some msg }, [GoValue.nil])
  | _ => (header, values)

/-- Send each value in order, stopping at the first encode error. -/
def sendValues (oracle : SendOracle) (ch : Chan) :
    List GoValue → Chan × Option String
  | [] => (ch, none)
  | v :: rest =>
    match ch.send oracle (WireEvent.value v) with
    | (ch', none) => sendValues oracle ch' rest
    | (ch', some e) => (ch', some e)

/-- responder.respond: marks responded, sets the continue flag, applies the
error convention, sends the header, substitutes a single nil when the value
list is empty, sends each value in order, and closes the channel in the
non-continue branch; the first encode error is returned immediately. -/
def respond (oracle : SendOracle) (closeErr : Option String)
    (r : ResponderState) (values : List GoValue) (continue_ : Bool) :
    ResponderState × Option String :=
  let r := { r with responded := true,
                    header := { r.header with C := continue_ } }
  let p := errConv r.header values
  let r := { r with header := p.1 }
  let values := p.2
  match r.ch.send oracle (WireEvent.header r.header) with
  | (ch, some e) => ({ r with ch := ch }, some e)
  | (ch, none) =>
    let values := if values = [] then [GoValue.nil] else values
    match sendValues oracle ch values with
    | (ch, some e) => ({ r with ch := ch }, some e)
    | (ch, none) =>
      if !continue_ then
        let q := ch.close closeErr
        ({ r with ch := q.1 }, q.2)
      else
        ({ r with ch := ch }, none)

/-- responder.Return: respond with continue = false. -/
def ResponderState.Return (oracle : SendOracle) (closeErr : Option String)
    (r : ResponderState) (values : List GoValue) :
    ResponderState × Option String :=
  respond oracle closeErr r values false

/-- responder.Continue: respond with continue = true; the channel of the
responder is returned to the handler. -/
def ResponderState.Continue (oracle : SendOracle) (closeErr : Option String)
    (r : ResponderState) (values : List GoValue) :
    ResponderState × Chan × Option String :=
  let p := respond oracle closeErr r values true
  (p.1, p.1.ch, p.2)

/-- The supplied value list after the two conventions of respond: a single
error collapses to a single nil, and an empty list is replaced by a single
nil. This is exactly the list of reply values respond sends after the
header when every encode succeeds. -/
def effectiveValues (values : List GoValue) : List GoValue :=
  match values with
  | [GoValue.error _] => [GoValue.nil]
  | [] => [GoValue.nil]
  | _ => values

/-- The header respond sends: the continue flag is set as given, and the
error field is overwritten with the message when the supplied values are a
single error object. -/
def finalHeader (h : ResponseHeader) (values : List GoValue) (cont : Bool) :
    ResponseHeader :=
  match values with
  | [GoValue.error msg] => { h with E := some msg, C := cont }
  | _ => { h with C := cont }

/-- Number of header events in a trace. -/
def countHeaders (t : List WireEvent) : Nat :=
  t.countP (fun ev => match ev with | WireEvent.header _ => true | _ => false)

/-- A responder as freshly built by the dispatcher: not yet responded, an
empty header, a fresh channel. -/
def freshResponder : ResponderState :=
  ⟨false, ⟨none, false⟩, ⟨0, [], false⟩⟩

theorem sendValues_noFail (vs : List GoValue) (ch : Chan) :
    sendValues noFail ch vs =
      ({ ch with sends := ch.sends + vs.length,
                 trace := ch.trace ++ vs.map WireEvent.value }, none) := by
  induction vs generalizing ch with
  | nil => simp [sendValues]
  | cons v rest ih =>
    obtain ⟨s, t, c⟩ := ch
    simp [sendValues, Chan.send, noFail, ih, List.append_assoc,
      Nat.add_assoc, Nat.add_comm 1 rest.length]

theorem respond_noFail (r : ResponderState) (values : List GoValue)
    (cont : Bool) (ce : Option String) :
    respond noFail ce r values cont =
      ({ responded := true,
         header := finalHeader r.header values cont,
         ch := { sends := r.ch.sends + 1 + (effectiveValues values).length,
                 trace := r.ch.trace ++
                   WireEvent.header (finalHeader r.header values cont) ::
                     (effectiveValues values).map WireEvent.value,
                 closed := if cont then r.ch.closed else true } },
       if cont then none else ce) := by
  obtain ⟨b, h, s, t, c⟩ := r
  match values with
  | [] =>
    simp [respond, errConv, Chan.send, noFail, sendValues_noFail,
      effectiveValues, finalHeader, Chan.close]
    cases cont <;> simp
  | [GoValue.nil] =>
    simp [respond, errConv, Chan.send, noFail, sendValues_noFail,
      effectiveValues, finalHeader, Chan.close]
    cases cont <;> simp [Nat.add_assoc]
  | [GoValue.error msg] =>
    simp [respond, errConv, Chan.send, noFail, sendValues_noFail,
      effectiveValues, finalHeader, Chan.close]
    cases cont <;> simp [Nat.add_assoc]
  | [GoValue.data n] =>
    simp [respond, errConv, Chan.send, noFail, sendValues_noFail,
      effectiveValues, finalHeader, Chan.close]
    cases cont <;> simp [Nat.add_assoc]
  | v₁ :: v₂ :: rest =>
    simp [respond, errConv, Chan.send, noFail, sendValues_noFail,
      effectiveValues, finalHeader, Chan.close]
    cases cont <;> simp [Nat.add_assoc]

/-- Response: the client-side handle — the decoded ResponseHeader, the first
reply value, and the underlying channel. -/
structure Response where
  header : ResponseHeader
  Value : GoValue
  Channel : Chan

/-- Response.Err: nil when the header error field is unset, otherwise an
error constructed from the message string (modelled by the message). -/
def Response.Err (r : Response) : Option String :=
  match r.header.E with
  | none => none
  | some s => some s

/-- Response.Continue: the continue flag of the decoded header. -/
def Response.Continue (r : Response) : Bool :=
  r.header.C

/-- A decode target on the responding side: the throwaway byte buffer a nil
argument is replaced by (decoding raw bytes always succeeds), or a typed
target with a predicate saying which wire values decode into it. -/
inductive DecodeTarget where
  | bytes : DecodeTarget
  | typed : (GoValue → Bool) → DecodeTarget

/-- Decoder.Decode over a channel modelled as the list of wire values not
yet consumed: consumes the next value and reports the decode outcome
(remaining values, error, value written into the target). -/
def Decoder.Decode (pending : List GoValue) (t : DecodeTarget) :
    List GoValue × Option String × Option GoValue :=
  match pending with
  | [] => ([], some "EOF", none)
  | v :: rest =>
    match t with
    | DecodeTarget.bytes => (rest, none, some v)
    | DecodeTarget.typed ok =>
      if ok v then (rest, none, some v) else (rest, some "decode error", none)

/-- Call: the server-side context for one inbound call — the decoded
selector and the decoder state (values still to be read) of the channel. -/
structure Call where
  S : String
  pending : List GoValue

/-- Call.Receive: a nil target (none) is replaced by a throwaway byte
buffer before decoding, so the next value is consumed either way. -/
def Call.Receive (c : Call) (v : Option DecodeTarget) :
    Call × Option String × Option GoValue :=
  let v := v.getD DecodeTarget.bytes
  let p := Decoder.Decode c.pending v
  ({ c with pending := p.1 }, p.2.1, p.2.2)

/-- Result of ReceiveNotify: the values delivered on the output channel,
whether the output channel and the Response were closed (the two defers),
and the returned error. -/
structure RNResult (T : Type) where
  delivered : List T
  outClosed : Bool
  respClosed : Bool
  ret : Option String
deriving DecidableEq, Repr

/-- The loop body of ReceiveNotify: i is the iteration counter used to
consult the cancellation signal, incoming the values still deliverable on
the response channel, recvErr the receive error reported once incoming is
exhausted (the channel ended), conv the mapstructure conversion into the
element type. Each iteration receives a value, converts it, then either
stops (returning nil) when cancellation has fired, or forwards the element. -/
def receiveNotifyAux {T : Type} (ctxDone : Nat → Bool)
    (conv : GoValue → Except String T) (recvErr : String) :
    Nat → List GoValue → List T × Option String
  | _, [] => ([], some recvErr)
  | i, v :: rest =>
    match conv v with
    | Except.error e => ([], some e)
    | Except.ok vv =>
      if ctxDone i then ([], none)
      else
        let p := receiveNotifyAux ctxDone conv recvErr (i + 1) rest
        (vv :: p.1, p.2)

/-- ReceiveNotify: runs the loop; the two defers close the output channel
and the Response on every return path. -/
def ReceiveNotify {T : Type} (ctxDone : Nat → Bool)
    (conv : GoValue → Except String T) (incoming : List GoValue)
    (recvErr : String) : RNResult T :=
  let p := receiveNotifyAux ctxDone conv recvErr 0 incoming
  ⟨p.1, true, true, p.2⟩

/-- One operation a handler can perform on its responder. -/
inductive HandlerOp where
  | send : GoValue → HandlerOp
  | ret : List GoValue → HandlerOp
  | cont : List GoValue → HandlerOp

/-- Run a sequence of handler operations against a responder state. -/
def runOps (oracle : SendOracle) (ce : Option String)
    (r : ResponderState) : List HandlerOp → ResponderState
  | [] => r
  | op :: rest =>
    let r' := match op with
      | HandlerOp.send v => (r.Send oracle v).1
      | HandlerOp.ret vs => (r.Return oracle ce vs).1
      | HandlerOp.cont vs => (r.Continue oracle ce vs).1
    runOps oracle ce r' rest

/-- The usage discipline of the Responder interface: the handler initiates
the response (Return or Continue) before anything else; in particular Send
is only used after Continue. -/
def respondsFirst (ops : List HandlerOp) : Bool :=
  match ops with
  | [] => true
  | HandlerOp.send _ :: _ => false
  | HandlerOp.ret _ :: _ => true
  | HandlerOp.cont _ :: _ => true

/-- A trace in which no reply value precedes the first response header. -/
def noValueBeforeHeader (t : List WireEvent) : Bool :=
  match t with
  | [] => true
  | WireEvent.header _ :: _ => true
  | WireEvent.value _ :: _ => false

theorem countHeaders_append (t u : List WireEvent) :
    countHeaders (t ++ u) = countHeaders t + countHeaders u := by
  simp [countHeaders, List.countP_append]

theorem countHeaders_header (h : ResponseHeader) (t : List WireEvent) :
    countHeaders (WireEvent.header h :: t) = countHeaders t + 1 := by
  simp [countHeaders, List.countP_cons]

theorem countHeaders_values (vs : List GoValue) :
    countHeaders (vs.map WireEvent.value) = 0 := by
  induction vs with
  | nil => rfl
  | cons v rest ih => simp [countHeaders, List.countP_cons]

theorem effectiveValues_length (values : List GoValue) :
    1 ≤ (effectiveValues values).length := by
  match values with
  | [] => simp [effectiveValues]
  | [GoValue.nil] => simp [effectiveValues]
  | [GoValue.error m] => simp [effectiveValues]
  | [GoValue.data n] => simp [effectiveValues]
  | a :: b :: t => simp [effectiveValues]

/-- Claim C1: a call to Return or Continue whose single supplied value is an
error object replaces the value list with a single null placeholder and puts
the message of the error in the header error field; on the wire the header
(carrying that message) is followed by a single null value, and a Response
built from that header has Err equal to the message. -/
theorem c1_single_error_collapses (b0 : Bool) (h0 : ResponseHeader)
    (ch : Chan) (ce : Option String) (msg : String) :
    (ResponderState.Return noFail ce ⟨b0, h0, ch⟩ [GoValue.error msg]).1.header.E
        = some msg ∧
    (ResponderState.Return noFail ce ⟨b0, h0, ch⟩ [GoValue.error msg]).1.ch.trace
        = ch.trace ++ [WireEvent.header { h0 with E := some msg, C := false },
            WireEvent.value GoValue.nil] ∧
    Response.Err ⟨(ResponderState.Return noFail ce ⟨b0, h0, ch⟩
        [GoValue.error msg]).1.header, GoValue.nil, ch⟩ = some msg ∧
    (ResponderState.Continue noFail ce ⟨b0, h0, ch⟩ [GoValue.error msg]).1.header.E
        = some msg ∧
    (ResponderState.Continue noFail ce ⟨b0, h0, ch⟩ [GoValue.error msg]).2.1.trace
        = ch.trace ++ [WireEvent.header { h0 with E := some msg, C := true },
            WireEvent.value GoValue.nil] ∧
    Response.Err ⟨(ResponderState.Continue noFail ce ⟨b0, h0, ch⟩
        [GoValue.error msg]).1.header, GoValue.nil, ch⟩ = some msg := by
  simp [ResponderState.Return, ResponderState.Continue, respond_noFail,
    finalHeader, effectiveValues, Response.Err]

/-- Claim C2: for every non-continued call the trace is the single header
followed by the effective value list, which is never empty: an empty value
list (for example Return with no arguments) is replaced by a single null, so
at least one decodable reply value always follows the header. -/
theorem c2_at_least_one_reply (b0 : Bool) (h0 : ResponseHeader) (ch : Chan)
    (ce : Option String) (values : List GoValue) :
    (ResponderState.Return noFail ce ⟨b0, h0, ch⟩ values).1.ch.trace =
      ch.trace ++ WireEvent.header (finalHeader h0 values false) ::
        (effectiveValues values).map WireEvent.value ∧
    1 ≤ (effectiveValues values).length ∧
    effectiveValues [] = [GoValue.nil] ∧
    countHeaders ((ResponderState.Return noFail ce ⟨b0, h0, ch⟩ values).1.ch.trace)
      = countHeaders ch.trace + 1 := by
  refine ⟨?_, effectiveValues_length values, rfl, ?_⟩
  · simp [ResponderState.Return, respond_noFail]
  · simp [ResponderState.Return, respond_noFail, countHeaders_append,
      countHeaders_header, countHeaders_values]

/-- Claim C7: Err and Continue are pure accessors over the decoded header:
Err is nil exactly when the header error field is unset and otherwise
carries the header error string, Continue returns exactly the header
continue flag, and both are unchanged when the Value or Channel fields of
the Response change. -/
theorem c7_pure_accessors (r : Response) (ch' : Chan) (v' : GoValue) :
    (Response.Err r = none ↔ r.header.E = none) ∧
    Response.Err r = r.header.E ∧
    Response.Continue r = r.header.C ∧
    Response.Err ⟨r.header, v', ch'⟩ = Response.Err r ∧
    Response.Continue ⟨r.header, v', ch'⟩ = Response.Continue r := by
  obtain ⟨⟨e, c⟩, v, ch⟩ := r
  cases e <;> simp [Response.Err, Response.Continue]

/-- Claim C8: Receive with a nil target still decodes the next value (into a
throwaway byte buffer), consuming it so the stream stays aligned; with a
typed target the value is decoded into it and a decode failure is returned
to the handler (the value being consumed either way). -/
theorem c8_receive_nil_discards (s : String) (v : GoValue)
    (rest : List GoValue) (ok : GoValue → Bool) :
    Call.Receive ⟨s, v :: rest⟩ none = (⟨s, rest⟩, none, some v) ∧
    Call.Receive ⟨s, v :: rest⟩ (some (DecodeTarget.typed ok)) =
      (⟨s, rest⟩, (if ok v then none else some "decode error"),
        (if ok v then some v else none)) := by
  constructor
  · rfl
  · by_cases h : ok v <;> simp [Call.Receive, Decoder.Decode, h]

/-- Claim C10: the error convention is a dynamic type check, not a nilness
check: a single supplied value that is an untyped nil (or ordinary data)
fails the error type assertion, so the header error field stays unset and
the value is sent unchanged as the single reply; the caller then observes
Err nil. The continue flag covers both Return (false) and Continue (true),
which delegate to respond. -/
theorem c10_untyped_nil_not_error (b0 : Bool) (c0 : Bool) (ch : Chan)
    (ce : Option String) (cont : Bool) (n : Nat) :
    (respond noFail ce ⟨b0, ⟨none, c0⟩, ch⟩ [GoValue.nil] cont).1.header.E
      = none ∧
    (respond noFail ce ⟨b0, ⟨none, c0⟩, ch⟩ [GoValue.nil] cont).1.ch.trace =
      ch.trace ++ [WireEvent.header ⟨none, cont⟩, WireEvent.value GoValue.nil] ∧
    Response.Err ⟨(respond noFail ce ⟨b0, ⟨none, c0⟩, ch⟩
      [GoValue.nil] cont).1.header, GoValue.nil, ch⟩ = none ∧
    (respond noFail ce ⟨b0, ⟨none, c0⟩, ch⟩ [GoValue.data n] cont).1.header.E
      = none ∧
    (respond noFail ce ⟨b0, ⟨none, c0⟩, ch⟩ [GoValue.data n] cont).1.ch.trace =
      ch.trace ++ [WireEvent.header ⟨none, cont⟩,
        WireEvent.value (GoValue.data n)] := by
  simp [respond_noFail, finalHeader, effectiveValues, Response.Err]

/-- Claim C3 counterexample: for Return with no supplied values the trace is
not the header followed by each supplied value (which would be the bare
header): respond inserts a null value the handler never supplied. -/
theorem c3_counterexample :
    (ResponderState.Return noFail none freshResponder []).1.ch.trace ≠
      [WireEvent.header ⟨none, false⟩] := by
  decide

/-- Claim C3 (amended): for every successful Return the trace is the header
with continue false followed by each value of the effective value list (the
supplied values after the single-error and at-least-one-reply conventions)
in order, and the channel is then closed; for every successful Continue the
trace is the header with continue true followed by the effective values in
order, the channel is not closed, and the channel of the responder is
returned to the handler. In both cases the header precedes every value. -/
theorem c3_trace_shape (b0 : Bool) (h0 : ResponseHeader)
    (values : List GoValue) (ce : Option String) :
    (ResponderState.Return noFail ce ⟨b0, h0, ⟨0, [], false⟩⟩ values).1.ch.trace
      = WireEvent.header (finalHeader h0 values false) ::
          (effectiveValues values).map WireEvent.value ∧
    (ResponderState.Return noFail ce ⟨b0, h0, ⟨0, [], false⟩⟩ values).1.ch.closed
      = true ∧
    (ResponderState.Return noFail ce ⟨b0, h0, ⟨0, [], false⟩⟩ values).2 = ce ∧
    (ResponderState.Continue noFail ce ⟨b0, h0, ⟨0, [], false⟩⟩ values).2.1.trace
      = WireEvent.header (finalHeader h0 values true) ::
          (effectiveValues values).map WireEvent.value ∧
    (ResponderState.Continue noFail ce ⟨b0, h0, ⟨0, [], false⟩⟩ values).2.1.closed
      = false ∧
    (ResponderState.Continue noFail ce ⟨b0, h0, ⟨0, [], false⟩⟩ values).2.1 =
      (ResponderState.Continue noFail ce ⟨b0, h0, ⟨0, [], false⟩⟩ values).1.ch ∧
    (ResponderState.Continue noFail ce ⟨b0, h0, ⟨0, [], false⟩⟩ values).2.2
      = none ∧
    noValueBeforeHeader
      ((ResponderState.Return noFail ce ⟨b0, h0, ⟨0, [], false⟩⟩ values).1.ch.trace)
      = true ∧
    noValueBeforeHeader
      ((ResponderState.Continue noFail ce ⟨b0, h0, ⟨0, [], false⟩⟩ values).2.1.trace)
      = true := by
  simp [ResponderState.Return, ResponderState.Continue, respond_noFail,
    noValueBeforeHeader]

theorem respond_eq (oracle : SendOracle) (ce : Option String)
    (r : ResponderState) (values : List GoValue) (cont : Bool) :
    respond oracle ce r values cont =
      match r.ch.send oracle
          (WireEvent.header (finalHeader r.header values cont)) with
      | (ch, some e) => (⟨true, finalHeader r.header values cont, ch⟩, some e)
      | (ch, none) =>
        match sendValues oracle ch (effectiveValues values) with
        | (ch, some e) =>
          (⟨true, finalHeader r.header values cont, ch⟩, some e)
        | (ch, none) =>
          if !cont then
            (⟨true, finalHeader r.header values cont,
              { ch with closed := true }⟩, ce)
          else (⟨true, finalHeader r.header values cont, ch⟩, none) := by
  obtain ⟨b, h, ch⟩ := r
  match values with
  | [] => rfl
  | [GoValue.nil] => rfl
  | [GoValue.error m] => rfl
  | [GoValue.data n] => rfl
  | GoValue.nil :: v₂ :: rest => rfl
  | GoValue.error m :: v₂ :: rest => rfl
  | GoValue.data n :: v₂ :: rest => rfl

theorem respond_responded (oracle : SendOracle) (ce : Option String)
    (r : ResponderState) (values : List GoValue) (cont : Bool) :
    (respond oracle ce r values cont).1.responded = true := by
  rw [respond_eq]
  split
  · rfl
  · split
    · rfl
    · split
      · rfl
      · rfl

/-- Claim C4: respond always sets the responded flag, never reads it (its
result does not depend on the initial flag value), and a second call to
respond on the already-responded state is not rejected: it succeeds and a
second header appears on the trace. -/
theorem c4_responded_not_enforced (oracle : SendOracle) (ce : Option String)
    (b b' : Bool) (h0 : ResponseHeader) (ch : Chan)
    (values values' : List GoValue) (cont cont' : Bool) :
    (respond oracle ce ⟨b, h0, ch⟩ values cont).1.responded = true ∧
    respond oracle ce ⟨b, h0, ch⟩ values cont =
      respond oracle ce ⟨b', h0, ch⟩ values cont ∧
    countHeaders ((respond noFail none
        (respond noFail none ⟨b, h0, ch⟩ values cont).1 values' cont').1.ch.trace)
      = countHeaders ch.trace + 2 ∧
    (respond noFail none
        (respond noFail none ⟨b, h0, ch⟩ values cont).1 values' cont').2
      = (if cont' then none else none) := by
  refine ⟨respond_responded oracle ce _ values cont, rfl, ?_, ?_⟩
  · simp only [respond_noFail]
    simp [countHeaders_append, countHeaders_header, countHeaders_values]
  · simp [respond_noFail]

theorem sendValues_fail (oracle : SendOracle) (vs : List GoValue) (ch : Chan)
    (k : Nat) (e : String)
    (hok : ∀ j, j < k → oracle (ch.sends + j) = none)
    (hfail : oracle (ch.sends + k) = some e)
    (hk : k < vs.length) :
    sendValues oracle ch vs =
      ({ ch with sends := ch.sends + k + 1,
                 trace := ch.trace ++ (vs.take k).map WireEvent.value },
       some e) := by
  induction vs generalizing ch k with
  | nil => simp at hk
  | cons v rest ih =>
    cases k with
    | zero =>
      have hfail0 : oracle ch.sends = some e := by simpa using hfail
      simp [sendValues, Chan.send, hfail0]
    | succ k' =>
      have h0 : oracle (ch.sends + 0) = none := hok 0 (Nat.succ_pos k')
      have h0' : oracle ch.sends = none := by simpa using h0
      have step := ih ⟨ch.sends + 1, ch.trace ++ [WireEvent.value v],
          ch.closed⟩ k'
        (fun j hj => by
          have := hok (j + 1) (by omega)
          simpa [Nat.add_assoc, Nat.add_comm 1 j] using this)
        (by
          have : ch.sends + (k' + 1) = ch.sends + 1 + k' := by omega
          simpa [this] using hfail)
        (by simpa using Nat.lt_of_succ_lt_succ hk)
      simp [sendValues, Chan.send, h0', step, List.append_assoc]
      omega

/-- Claim C5: first-error policy of respond. If the header encode fails,
respond returns that error at once: nothing is added to the trace and the
channel is not closed. If the k-th reply value encode is the first failure,
respond returns that error, only the values before it were sent, and the
channel is not closed. When every encode succeeds, the close is attempted
exactly in the non-continue branch, and its error is what respond returns
there; in the continue branch respond returns nil without closing. -/
theorem c5_first_error_policy (oracle : SendOracle) (ce : Option String)
    (b0 : Bool) (h0 : ResponseHeader) (ch : Chan) (values : List GoValue)
    (cont : Bool) (e : String) (k : Nat) :
    (oracle ch.sends = some e →
      respond oracle ce ⟨b0, h0, ch⟩ values cont =
        (⟨true, finalHeader h0 values cont,
          { ch with sends := ch.sends + 1 }⟩, some e)) ∧
    (oracle ch.sends = none →
      (∀ j, j < k → oracle (ch.sends + 1 + j) = none) →
      oracle (ch.sends + 1 + k) = some e →
      k < (effectiveValues values).length →
      respond oracle ce ⟨b0, h0, ch⟩ values cont =
        (⟨true, finalHeader h0 values cont,
          ⟨ch.sends + 1 + k + 1,
           ch.trace ++ WireEvent.header (finalHeader h0 values cont) ::
             ((effectiveValues values).take k).map WireEvent.value,
           ch.closed⟩⟩,
         some e)) ∧
    (respond noFail ce ⟨b0, h0, ch⟩ values cont).1.ch.closed =
      (if cont then ch.closed else true) ∧
    (respond noFail ce ⟨b0, h0, ch⟩ values cont).2 =
      (if cont then none else ce) := by
  refine ⟨?_, ?_, ?_, ?_⟩
  · intro hfail
    rw [respond_eq]
    simp [Chan.send, hfail]
  · intro hhd hok hfail hk
    rw [respond_eq]
    have step := sendValues_fail oracle (effectiveValues values)
      ⟨ch.sends + 1,
       ch.trace ++ [WireEvent.header (finalHeader h0 values cont)],
       ch.closed⟩ k e
      (fun j hj => hok j hj) hfail hk
    simp [Chan.send, hhd, step, List.append_assoc]
  · simp [respond_noFail]
  · simp [respond_noFail]

/-- Witness for C5: with an oracle that fails the second encode, a Return of
two data values sends the header, fails on the first value, returns the
error, leaves only the header on the trace and does not close the channel. -/
theorem c5_witness :
    respond (fun i => if i = 1 then some "bang" else none) none
        ⟨false, ⟨none, false⟩, ⟨0, [], false⟩⟩
        [GoValue.data 7, GoValue.data 8] false =
      (⟨true, ⟨none, false⟩,
        ⟨2, [WireEvent.header ⟨none, false⟩], false⟩⟩, some "bang") := by
  have h := (c5_first_error_policy (fun i => if i = 1 then some "bang" else none)
    none false ⟨none, false⟩ ⟨0, [], false⟩ [GoValue.data 7, GoValue.data 8]
    false "bang" 0).2.1
  have h2 := h (by decide) (by decide) (by decide) (by decide)
  simpa [finalHeader, effectiveValues] using h2

theorem receiveNotifyAux_noCancel_some {T : Type} (ctxDone : Nat → Bool)
    (conv : GoValue → Except String T) (recvErr : String)
    (incoming : List GoValue) (i : Nat)
    (hnc : ∀ j, ctxDone j = false) :
    ∃ e, (receiveNotifyAux ctxDone conv recvErr i incoming).2 = some e := by
  induction incoming generalizing i with
  | nil => exact ⟨recvErr, rfl⟩
  | cons v rest ih =>
    cases hc : conv v with
    | error e => exact ⟨e, by simp [receiveNotifyAux, hc]⟩
    | ok vv =>
      obtain ⟨e, he⟩ := ih (i + 1)
      exact ⟨e, by simp [receiveNotifyAux, hc, hnc i, he]⟩

theorem receiveNotifyAux_allOk {T : Type} (ctxDone : Nat → Bool)
    (conv : GoValue → Except String T) (recvErr : String)
    (incoming : List GoValue) (i : Nat)
    (hnc : ∀ j, ctxDone j = false)
    (hok : ∀ v ∈ incoming, ∃ t, conv v = Except.ok t) :
    (receiveNotifyAux ctxDone conv recvErr i incoming).2 = some recvErr := by
  induction incoming generalizing i with
  | nil => rfl
  | cons v rest ih =>
    obtain ⟨t, ht⟩ := hok v (by simp)
    have tail := ih (i + 1) (fun v hv => hok v (by simp [hv]))
    simp [receiveNotifyAux, ht, hnc i, tail]

theorem receiveNotifyAux_cancel {T : Type} (ctxDone : Nat → Bool)
    (conv : GoValue → Except String T) (recvErr : String)
    (incoming : List GoValue) (i k : Nat)
    (hk : ctxDone (i + k) = true)
    (hb : ∀ j, j < k → ctxDone (i + j) = false)
    (hok : ∀ v ∈ incoming, ∃ t, conv v = Except.ok t)
    (hlen : k < incoming.length) :
    (receiveNotifyAux ctxDone conv recvErr i incoming).2 = none ∧
    (receiveNotifyAux ctxDone conv recvErr i incoming).1.length = k := by
  induction incoming generalizing i k with
  | nil => simp at hlen
  | cons v rest ih =>
    obtain ⟨t, ht⟩ := hok v (by simp)
    cases k with
    | zero =>
      have hdone : ctxDone i = true := by simpa using hk
      simp [receiveNotifyAux, ht, hdone]
    | succ k' =>
      have h0 : ctxDone i = false := by simpa using hb 0 (Nat.succ_pos k')
      have hk' : ctxDone (i + 1 + k') = true := by
        have : i + 1 + k' = i + (k' + 1) := by omega
        rw [this]; exact hk
      have hb' : ∀ j, j < k' → ctxDone (i + 1 + j) = false := by
        intro j hj
        have := hb (j + 1) (by omega)
        have heq : i + (j + 1) = i + 1 + j := by omega
        rwa [heq] at this
      have tail := ih (i + 1) k' hk' hb'
        (fun v hv => hok v (by simp [hv])) (by simpa using hlen)
      simp [receiveNotifyAux, ht, h0, tail.1, tail.2]

/-- Claim C6: ReceiveNotify always closes both its output channel and the
Response (the two defers run on every return path); with no cancellation it
always returns the terminating error — the receive error reported when the
underlying channel ends if every element converts, or the first conversion
error; and when cancellation first fires at iteration k (all earlier
iterations delivered), it returns nil and exactly the first k elements were
forwarded: the element decoded in iteration k is not delivered. -/
theorem c6_receive_notify (ctxDone : Nat → Bool)
    (conv : GoValue → Except String Nat) (incoming : List GoValue)
    (recvErr : String) (k : Nat) :
    (ReceiveNotify ctxDone conv incoming recvErr).outClosed = true ∧
    (ReceiveNotify ctxDone conv incoming recvErr).respClosed = true ∧
    ((∀ j, ctxDone j = false) →
      ∃ e, (ReceiveNotify ctxDone conv incoming recvErr).ret = some e) ∧
    ((∀ j, ctxDone j = false) →
      (∀ v ∈ incoming, ∃ t, conv v = Except.ok t) →
      (ReceiveNotify ctxDone conv incoming recvErr).ret = some recvErr) ∧
    (ctxDone k = true → (∀ j, j < k → ctxDone j = false) →
      (∀ v ∈ incoming, ∃ t, conv v = Except.ok t) → k < incoming.length →
      (ReceiveNotify ctxDone conv incoming recvErr).ret = none ∧
      (ReceiveNotify ctxDone conv incoming recvErr).delivered.length = k) := by
  refine ⟨rfl, rfl, ?_, ?_, ?_⟩
  · intro hnc
    exact receiveNotifyAux_noCancel_some ctxDone conv recvErr incoming 0 hnc
  · intro hnc hok
    exact receiveNotifyAux_allOk ctxDone conv recvErr incoming 0 hnc hok
  · intro hk hb hok hlen
    have h := receiveNotifyAux_cancel ctxDone conv recvErr incoming 0 k
      (by simpa using hk) (fun j hj => by simpa using hb j hj) hok hlen
    exact ⟨h.1, h.2⟩

/-- Conversion used by the C6 witness: a data value converts to its payload,
anything else is a conversion error. -/
def c6conv : GoValue → Except String Nat := fun v =>
  match v with
  | GoValue.data n => Except.ok n
  | _ => Except.error "cannot convert"

/-- Witness for C6: cancellation fires at iteration 1 of a three-element
stream; ReceiveNotify closes everything, returns nil, and delivers exactly
the first element. -/
theorem c6_witness :
    (ReceiveNotify (fun j => decide (j = 1)) c6conv
      [GoValue.data 5, GoValue.data 6, GoValue.data 7] "EOF").ret = none ∧
    (ReceiveNotify (fun j => decide (j = 1)) c6conv
      [GoValue.data 5, GoValue.data 6, GoValue.data 7] "EOF").delivered.length
      = 1 :=
  (c6_receive_notify (fun j => decide (j = 1)) c6conv
      [GoValue.data 5, GoValue.data 6, GoValue.data 7] "EOF" 1).2.2.2.2
    (by decide) (by decide)
    (by
      intro v hv
      fin_cases hv <;> exact ⟨_, rfl⟩)
    (by decide)

theorem runOps_trace_mono (ce : Option String) (r : ResponderState)
    (ops : List HandlerOp) :
    ∃ ext, (runOps noFail ce r ops).ch.trace = r.ch.trace ++ ext := by
  induction ops generalizing r with
  | nil => exact ⟨[], by simp [runOps]⟩
  | cons op rest ih =>
    cases op with
    | send v =>
      obtain ⟨ext, hext⟩ := ih (r.Send noFail v).1
      refine ⟨WireEvent.value v :: ext, ?_⟩
      simp only [runOps]
      rw [hext]
      simp [ResponderState.Send, Chan.send, noFail]
    | ret vs =>
      obtain ⟨ext, hext⟩ := ih (r.Return noFail ce vs).1
      refine ⟨(WireEvent.header (finalHeader r.header vs false) ::
        (effectiveValues vs).map WireEvent.value) ++ ext, ?_⟩
      simp only [runOps]
      rw [hext]
      simp [ResponderState.Return, respond_noFail]
    | cont vs =>
      obtain ⟨ext, hext⟩ := ih (r.Continue noFail ce vs).1
      refine ⟨(WireEvent.header (finalHeader r.header vs true) ::
        (effectiveValues vs).map WireEvent.value) ++ ext, ?_⟩
      simp only [runOps]
      rw [hext]
      simp [ResponderState.Continue, respond_noFail]

/-- Claim C9: under the usage discipline of the Responder interface — the
handler initiates its response before anything else, Send being valid only
after Continue — no reply value ever precedes the response header on the
channel: the trace of a responder driven from its fresh state by any
discipline-respecting sequence of operations (all encodes succeeding) never
has a value before the first header; in particular Send is never executed
in the unresponded state. -/
theorem c9_no_value_before_header (ce : Option String)
    (ops : List HandlerOp) (hops : respondsFirst ops = true) :
    noValueBeforeHeader ((runOps noFail ce freshResponder ops).ch.trace)
      = true := by
  cases ops with
  | nil => rfl
  | cons op rest =>
    cases op with
    | send v => simp [respondsFirst] at hops
    | ret vs =>
      obtain ⟨ext, hext⟩ :=
        runOps_trace_mono ce (freshResponder.Return noFail ce vs).1 rest
      simp only [runOps]
      rw [hext]
      simp [ResponderState.Return, respond_noFail, freshResponder,
        noValueBeforeHeader]
    | cont vs =>
      obtain ⟨ext, hext⟩ :=
        runOps_trace_mono ce (freshResponder.Continue noFail ce vs).1 rest
      simp only [runOps]
      rw [hext]
      simp [ResponderState.Continue, respond_noFail, freshResponder,
        noValueBeforeHeader]

/-- Witness for C9: a handler that calls Continue with one value and then
streams one more value with Send produces a trace headed by the response
header. -/
theorem c9_witness :
    noValueBeforeHeader ((runOps noFail none freshResponder
      [HandlerOp.cont [GoValue.data 1],
       HandlerOp.send (GoValue.data 2)]).ch.trace) = true :=
  c9_no_value_before_header none
    [HandlerOp.cont [GoValue.data 1], HandlerOp.send (GoValue.data 2)]
    (by decide)

end Rpc
